import Mathlib

set_option maxHeartbeats 1000000

/-!
Verification development for the rustflare partitioned query-execution engine.
Definitions shallowly embed the Rust sources under src/src (pop.rs, task.rs,
qst.rs, env.rs, includes.rs); parts of the repository that are not under src
(row.rs, pcode.rs, stage.rs, the csv iterators) are modelled from the spec and
marked as such in their doc comments.
-/

namespace RustFlare

/-- Identifier aliases, from src/src/includes.rs. -/
abbrev ColId := Nat

/-- Quantifier id, from src/src/includes.rs. -/
abbrev QunId := Nat

/-- Stage id, from src/src/includes.rs. -/
abbrev StageId := Nat

/-- Partition id, from src/src/includes.rs. -/
abbrev PartitionId := Nat

/-- Register index into the task row. Modelled from the spec: row.rs is not
under src/; a RegisterId is a small nonnegative integer. -/
abbrev RegisterId := Nat

/-- Pair of quantifier id and column id, from src/src/includes.rs (QunCol). -/
abbrev QunCol := QunId × ColId

/-- Datum: tagged runtime value. Modelled from the spec: row.rs is not under
src/; the variants INT, STR, BOOL, DOUBLE, NULL are those listed in the spec
and used by pop.rs and qst.rs. Rust isize is modelled as Int. -/
inductive Datum where
  | INT (i : Int)
  | STR (s : String)
  | BOOL (b : Bool)
  | DOUBLE (w : Int) (f : Int)
  | NULL
deriving DecidableEq, Repr

/-- Column data types as used by pop.rs and qst.rs (INT, STR, plus the
remaining variants appearing in qst.rs resolve_expr). -/
inductive DataType where
  | INT
  | STR
  | BOOL
  | DOUBLE
  | UNKNOWN
deriving DecidableEq, Repr

/-- Row: fixed-width array of Datum addressed by RegisterId. Modelled from the
spec: row.rs is not under src/. -/
structure Row where
  regs : List Datum
deriving DecidableEq, Repr

/-- Row.set_column writes a datum at a register index (out-of-range writes are
dropped; the compiled plan only writes allocated registers). -/
def Row.set_column (r : Row) (ix : RegisterId) (d : Datum) : Row :=
  ⟨r.regs.set ix d⟩

/-- Textual form of a datum, used inside error messages. Modelled from the
spec: the Display impl lives in row.rs which is not under src/; the spec gives
INT decimal, STR raw text, BOOL T or F. -/
def Datum.display : Datum → String
  | .INT i => toString i
  | .STR s => s
  | .BOOL b => if b then "T" else "F"
  | .DOUBLE w f => toString w ++ "." ++ toString f
  | .NULL => "NULL"

/-- Association-list lookup used to model the HashMap fields of the source
(input_map, RegisterAllocator.hashmap, the colid dispenser). Keys inserted by
the embedded code are unique, so an association list with first-match lookup
has the same observable behaviour as the Rust HashMap. -/
def alookup {κ ν : Type} [DecidableEq κ] : List (κ × ν) → κ → Option ν
  | [], _ => none
  | e :: rest, k => if e.1 = k then some e.2 else alookup rest k

/-! PCode: compiled expression bytecode. Modelled from the spec: pcode.rs is
not under src/. The spec gives a stack machine with PushLit, PushReg, Rel,
Log, Arith and a terminal Return, producing one Datum per evaluation; the call
sites in pop.rs receive a plain Datum from eval. -/

/-- Relational opcodes of the PCode machine. Modelled from the spec. -/
inductive RelOp where
  | EQ | NE | LT | LE | GT | GE
deriving DecidableEq, Repr

/-- Logical opcodes of the PCode machine. Modelled from the spec. -/
inductive LogOp where
  | AND | OR | NOT
deriving DecidableEq, Repr

/-- Arithmetic opcodes of the PCode machine. Modelled from the spec. -/
inductive ArithOp where
  | ADD | SUB | MUL | DIV
deriving DecidableEq, Repr

/-- One PCode instruction. Modelled from the spec. -/
inductive PInst where
  | pushLit (d : Datum)
  | pushReg (r : RegisterId)
  | relOp (op : RelOp)
  | logOp (op : LogOp)
  | arithOp (op : ArithOp)
deriving DecidableEq, Repr

/-- A compiled PCode program: a straight-line instruction list; the end of the
list plays the role of the terminal Return. Modelled from the spec. -/
structure PCode where
  instructions : List PInst
deriving DecidableEq, Repr

/-- Same-tag relational comparison; mixed tags have no value. Modelled from
the spec. -/
def relEval (op : RelOp) (l r : Datum) : Option Datum :=
  match l, r with
  | .INT a, .INT b =>
    some (.BOOL (match op with
      | .EQ => decide (a = b)
      | .NE => decide (a ≠ b)
      | .LT => decide (a < b)
      | .LE => decide (a ≤ b)
      | .GT => decide (b < a)
      | .GE => decide (b ≤ a)))
  | .STR a, .STR b =>
    some (.BOOL (match op with
      | .EQ => decide (a = b)
      | .NE => decide (a ≠ b)
      | .LT => decide (a < b)
      | .LE => decide (a ≤ b)
      | .GT => decide (b < a)
      | .GE => decide (b ≤ a)))
  | .BOOL a, .BOOL b =>
    match op with
    | .EQ => some (.BOOL (a = b))
    | .NE => some (.BOOL (a ≠ b))
    | _ => none
  | _, _ => none

/-- Integer arithmetic; division by zero has no value. Modelled from the
spec. -/
def arithEval (op : ArithOp) (l r : Datum) : Option Datum :=
  match l, r with
  | .INT a, .INT b =>
    match op with
    | .ADD => some (.INT (a + b))
    | .SUB => some (.INT (a - b))
    | .MUL => some (.INT (a * b))
    | .DIV => if b = 0 then none else some (.INT (a / b))
  | _, _ => none

/-- Effect of one PCode instruction on the evaluation stack. Modelled from
the spec. -/
def PInst.apply (row : Row) (stack : List Datum) : PInst → Option (List Datum)
  | .pushLit d => some (d :: stack)
  | .pushReg r =>
    match row.regs.get? r with
    | some d => some (d :: stack)
    | none => none
  | .relOp op =>
    match stack with
    | rhs :: lhs :: rest => (relEval op lhs rhs).map (· :: rest)
    | _ => none
  | .logOp .NOT =>
    match stack with
    | .BOOL b :: rest => some (.BOOL (!b) :: rest)
    | _ => none
  | .logOp op =>
    match stack with
    | .BOOL rhs :: .BOOL lhs :: rest =>
      some (.BOOL (if op = .AND then lhs && rhs else lhs || rhs) :: rest)
    | _ => none
  | .arithOp op =>
    match stack with
    | rhs :: lhs :: rest => (arithEval op lhs rhs).map (· :: rest)
    | _ => none

/-- Run the PCode stack machine to the terminal Return. Modelled from the
spec. -/
def PCode.runMachine (row : Row) : List PInst → List Datum → Option Datum
  | [], [d] => some d
  | [], _ => none
  | i :: rest, stack =>
    match i.apply row stack with
    | some stack2 => PCode.runMachine row rest stack2
    | none => none

/-- PCode evaluation as seen by the call sites in pop.rs: a plain Datum.
Ill-formed machine states collapse to NULL, a non-BOOL tag, which is all the
call sites inspect. Modelled from the spec. -/
def PCode.eval (p : PCode) (row : Row) : Datum :=
  (PCode.runMachine row p.instructions []).getD Datum.NULL

/-- Decidable equality of Except values, needed to evaluate the embedded
fallible functions on concrete inputs. -/
instance {ε α : Type} [DecidableEq ε] [DecidableEq α] : DecidableEq (Except ε α) :=
  fun a b =>
    match a, b with
    | .error e1, .error e2 =>
      if h : e1 = e2 then .isTrue (congrArg Except.error h)
      else .isFalse (fun hc => h (Except.error.inj hc))
    | .error _, .ok _ => .isFalse (fun hc => Except.noConfusion hc)
    | .ok _, .error _ => .isFalse (fun hc => Except.noConfusion hc)
    | .ok v1, .ok v2 =>
      if h : v1 = v2 then .isTrue (congrArg Except.ok h)
      else .isFalse (fun hc => h (Except.ok.inj hc))

/-- Result of running Rust code that may hit a panic (todo, unwrap failure or
an explicit panic macro). A panicked value aborts the surrounding thread; it
is distinct from the Err branch of a returned Result. -/
inductive PanicOr (α : Type) where
  | panicked (msg : String)
  | ok (v : α)
deriving DecidableEq, Repr

/-- POPProps, from src/src/pop.rs lines 15-30: per-node predicates, emit
columns and partition count. -/
structure POPProps where
  predicates : Option (List PCode)
  emitcols : Option (List PCode)
  npartitions : Nat
deriving DecidableEq, Repr

/-- Loop body of POPKey::eval_predicates over one predicate list, from
src/src/pop.rs lines 78-92: a BOOL(false) result short-circuits to false, a
non-BOOL result hits the panic branch of the source. -/
def evalPredList (registers : Row) : List PCode → PanicOr Bool
  | [] => .ok true
  | pred :: rest =>
    match pred.eval registers with
    | .BOOL b => if b then evalPredList registers rest else .ok false
    | _ => .panicked "No bool?"

/-- POPKey::eval_predicates, from src/src/pop.rs lines 78-92. -/
def POPKey.eval_predicates (props : POPProps) (registers : Row) : PanicOr Bool :=
  match props.predicates with
  | some preds => evalPredList registers preds
  | none => .ok true

/-- POPKey::eval_emitcols, from src/src/pop.rs lines 94-107: evaluates every
emit expression against the registers and collects the results into a row. -/
def POPKey.eval_emitcols (props : POPProps) (registers : Row) : Option Row :=
  match props.emitcols with
  | some emitcols => some ⟨emitcols.map (fun emit => emit.eval registers)⟩
  | none => none

/-- POPKey::next, the generic wrapper, from src/src/pop.rs lines 49-76. The
inner operator is abstracted as the list of rows it will successively produce
into task.task_row (its per-task runtime state). The wrapper evaluates the
predicates of the node, computes the emit row when the row passed, and then
returns Ok(true) whenever the inner operator produced a row; the emit row is
only logged by the source, so the task row is left as the operator wrote it.
Returns (got_row, remaining inner state, task row). -/
def POPKey.next (props : POPProps) (inner : List Row) (task_row : Row) :
    PanicOr (Bool × List Row × Row) :=
  match inner with
  | [] => .ok (false, [], task_row)
  | r :: rest =>
    match POPKey.eval_predicates props r with
    | .panicked m => .panicked m
    | .ok row_passed =>
      let _emitrow := if row_passed then POPKey.eval_emitcols props r else none
      .ok (true, rest, r)

/-- RegisterAllocator, from src/src/pop.rs lines 642-671. The HashMap is
modelled as an association list in insertion order; get_id only ever inserts
keys that are absent, so lookups agree with the Rust HashMap. -/
structure RegisterAllocator where
  hashmap : List (QunCol × RegisterId)
  next_id : RegisterId
deriving DecidableEq, Repr

/-- RegisterAllocator::new, from src/src/pop.rs. -/
def RegisterAllocator.new : RegisterAllocator :=
  { hashmap := [], next_id := 0 }

/-- RegisterAllocator::get_id, from src/src/pop.rs lines 662-670: entry
or_insert(next_id), then increment next_id exactly when the entry holds
next_id. -/
def RegisterAllocator.get_id (ra : RegisterAllocator) (quncol : QunCol) :
    RegisterId × RegisterAllocator :=
  let next_id := ra.next_id
  match alookup ra.hashmap quncol with
  | some v =>
    if v = next_id then
      (v, { ra with next_id := next_id + 1 })
    else
      (v, ra)
  | none =>
    (next_id, { hashmap := ra.hashmap ++ [(quncol, next_id)], next_id := next_id + 1 })

/-- Fold a sequence of get_id calls through one allocator, returning the ids
in call order together with the final allocator. -/
def RegisterAllocator.runCalls (ra : RegisterAllocator) :
    List QunCol → List RegisterId × RegisterAllocator
  | [] => ([], ra)
  | q :: qs =>
    let r := ra.get_id q
    let rest := r.2.runCalls qs
    (r.1 :: rest.1, rest.2)

/-- Well-formedness of an allocator reachable from RegisterAllocator::new:
keys are distinct, the assigned ids in insertion order are exactly
0, 1, ..., and next_id is the number of assigned keys. -/
def RegisterAllocator.invB (ra : RegisterAllocator) : Bool :=
  decide ((ra.hashmap.map Prod.fst).Nodup) &&
  decide (ra.hashmap.map Prod.snd = List.range ra.hashmap.length) &&
  decide (ra.next_id = ra.hashmap.length)

/-! Environment options, from src/src/env.rs. -/

/-- EnvSettings, from src/src/env.rs lines 8-11. -/
structure EnvSettings where
  parallel_degree : Option Nat
  parse_only : Option Bool
deriving DecidableEq, Repr

/-- Rust `as usize` cast of an isize, two's complement at 64 bits. -/
def intAsUsize (i : Int) : Nat :=
  (i % (2 ^ 64)).toNat

/-- Env::get_boolean_option, from src/src/env.rs lines 56-66: a STR value is
uppercased and matched against TRUE, T, YES, Y; any other string yields
Ok(false); a non-STR value yields Err. -/
def Env.get_boolean_option (nm : String) (value : Datum) : Except String Bool :=
  match value with
  | .STR s =>
    let s := s.toUpper
    if s = "TRUE" ∨ s = "T" ∨ s = "YES" ∨ s = "Y" then .ok true else .ok false
  | _ =>
    .error ("Option " ++ nm ++ " needs to be a string. It holds " ++ value.display ++ " instead.")

/-- Env::get_int_option, from src/src/env.rs lines 68-73. -/
def Env.get_int_option (nm : String) (value : Datum) : Except String Int :=
  match value with
  | .INT i => .ok i
  | _ =>
    .error ("Option " ++ nm ++ " needs to be an integer. It holds " ++ value.display ++ " instead.")

/-- Env::set_option, from src/src/env.rs lines 45-54 (the source name is
set_option; that spelling is a Lean keyword, hence the camel case). The name
is uppercased, then dispatched to PARALLEL_DEGREE or PARSE_ONLY; every other
name yields Err. -/
def Env.setOption (settings : EnvSettings) (nm : String) (value : Datum) :
    Except String EnvSettings :=
  let nm := nm.toUpper
  if nm = "PARALLEL_DEGREE" then
    match Env.get_int_option nm value with
    | .ok i => .ok { settings with parallel_degree := some (intAsUsize i) }
    | .error e => .error e
  else if nm = "PARSE_ONLY" then
    match Env.get_boolean_option nm value with
    | .ok b => .ok { settings with parse_only := some b }
    | .error e => .error e
  else
    .error ("Invalid option specified: " ++ nm ++ ".")

/-- Truthy option strings as the spec words them: uppercased value among
TRUE, T, YES, Y. Spec-side definition for comparison against the code. -/
def truthyStrings : List String := ["TRUE", "T", "YES", "Y"]

/-- Recogniser for the Ok(false) outcome of a next call. -/
def returnsOkFalse : PanicOr (Bool × Row) → Bool
  | .ok (false, _) => true
  | _ => false

/-- Pull state of one child of a join: the props of the child node and the
rows its subtree will successively yield, as in POPKey.next. -/
structure ChildState where
  props : POPProps
  rows : List Row
deriving DecidableEq, Repr

/-- Drain loop of HashJoin::next, from src/src/pop.rs line 136: the generic
wrapper is called on the child until it stops producing rows; every produced
row lands in task.task_row. The wrapper yields one row per list element, so
the loop consumes exactly the list. -/
def drainChild (props : POPProps) : List Row → Row → PanicOr Row
  | [], task_row => .ok task_row
  | r :: rest, task_row =>
    match POPKey.next props (r :: rest) task_row with
    | .panicked m => .panicked m
    | .ok (_, _, row2) => drainChild props rest row2

/-- HashJoin::next, from src/src/pop.rs lines 127-140: the source drains the
probe child (children[0]) and then the build child (children[1]) and returns
Ok(true) unconditionally; no hash table is built, no join row is emitted and
Ok(false) is never returned. The two child streams stand for the runtime
state of the child subtrees. -/
def HashJoin.next (probe build : ChildState) (task_row : Row) :
    PanicOr (Bool × Row) :=
  match drainChild probe.props probe.rows task_row with
  | .panicked m => .panicked m
  | .ok row1 =>
    match drainChild build.props build.rows row1 with
    | .panicked m => .panicked m
    | .ok row2 => .ok (true, row2)

/-- Task::run, from src/src/task.rs lines 99-107: one single call of next with
is_head true on the root of the stage; the returned flag is discarded and no
loop is performed. The root operator is abstracted as in POPKey.next by its
props and the rows it will yield; the result is the remaining root state and
the task row. -/
def Task.run (props : POPProps) (root_rows : List Row) (task_row : Row) :
    PanicOr (List Row × Row) :=
  match POPKey.next props root_rows task_row with
  | .panicked m => .panicked m
  | .ok (_, rest, row) => .ok (rest, row)

/-- CSV physical operator, from src/src/pop.rs lines 153-175. The pathname and
the byte-range partitions are omitted: the per-partition line iterator
(csv.rs, not under src/) is modelled from the spec as the list of lines of the
partition of the task. -/
structure CSV where
  coltypes : List DataType
  header : Bool
  separator : Char
  input_map : List (ColId × RegisterId)
deriving DecidableEq, Repr

/-- Iterator initialisation on the first call of CSV::next, from
src/src/pop.rs lines 179-185: the source consumes the first line exactly when
task.partition_id == 0; the header flag is not consulted (the source carries
the comment: fix: check if header exists though). -/
def CSV.initState (csv : CSV) (partition_id : Nat) (partition_lines : List String) :
    List String :=
  if partition_id = 0 then partition_lines.drop 1 else partition_lines

/-- Spec-side skip condition, following the claim words: the first line is
consumed iff task.partition_id == 0 and the header flag is set. Stated for
comparison with CSV.initState. -/
def specSkipsFirstLine (csv : CSV) (partition_id : Nat) : Bool :=
  decide (partition_id = 0) && csv.header

/-- Rust trim_end: drop trailing whitespace. -/
def trimEnd (s : String) : String :=
  ⟨(s.data.reverse.dropWhile Char.isWhitespace).reverse⟩

/-- Splitting at a separator character, as Rust str::split(char): the empty
string yields one empty field, and every separator starts a new field. -/
def splitCharsAux (sep : Char) : List Char → List Char → List String
  | [], acc => [⟨acc.reverse⟩]
  | c :: rest, acc =>
    if c = sep then ⟨acc.reverse⟩ :: splitCharsAux sep rest []
    else splitCharsAux sep rest (c :: acc)

/-- Split a string at a separator character. -/
def splitChars (sep : Char) (s : String) : List String :=
  splitCharsAux sep s.data []

/-- Digit-sequence parser: all characters must be decimal digits. -/
def parseNatAux : List Char → Nat → Option Nat
  | [], acc => some acc
  | c :: rest, acc =>
    if c.isDigit then parseNatAux rest (acc * 10 + (c.toNat - 48)) else none

/-- Rust str::parse for isize: optional sign followed by at least one decimal
digit; anything else fails. The 64-bit overflow bound of isize is not
modelled, the scans at issue carry small integers. -/
def parseIsize (s : String) : Option Int :=
  match s.data with
  | [] => none
  | '-' :: rest =>
    match rest with
    | [] => none
    | _ => (parseNatAux rest 0).map (fun n => -(n : Int))
  | '+' :: rest =>
    match rest with
    | [] => none
    | _ => (parseNatAux rest 0).map (fun n => (n : Int))
  | l => (parseNatAux l 0).map (fun n => (n : Int))

/-- Field loop of CSV::next, from src/src/pop.rs lines 191-210: for every
(index, field) with the index present in input_map, parse the field according
to coltypes and write the datum to the mapped register; a non-integer field
for an INT column, or a column type other than INT and STR, hits a panic
branch of the source. -/
def parseFields (csv : CSV) : List (Nat × String) → Row → PanicOr Row
  | [], row => .ok row
  | (ix, col) :: rest, row =>
    match alookup csv.input_map ix with
    | none => parseFields csv rest row
    | some reg =>
      match csv.coltypes.get? ix with
      | some .INT =>
        match parseIsize col with
        | some v => parseFields csv rest (row.set_column reg (.INT v))
        | none => .panicked (col ++ " is not an INT")
      | some .STR => parseFields csv rest (row.set_column reg (.STR col))
      | some _ => .panicked "not yet implemented"
      | none => .panicked "index out of range"

/-- Parse one line into the task row: trim the end, split at the separator,
enumerate and run the field loop (src/src/pop.rs lines 189-210). -/
def CSV.parseLine (csv : CSV) (line : String) (row : Row) : PanicOr Row :=
  parseFields csv (splitChars csv.separator (trimEnd line)).enum row

/-- CSV::next after iterator initialisation, from src/src/pop.rs lines
186-215: read one line and parse it into the task row, or report exhaustion
of the partition. -/
def CSV.next (csv : CSV) (st : List String) (row : Row) :
    PanicOr (Bool × List String × Row) :=
  match st with
  | [] => .ok (false, [], row)
  | line :: rest =>
    match csv.parseLine line row with
    | .panicked m => .panicked m
    | .ok row2 => .ok (true, rest, row2)

/-- Full scan of one partition: pull CSV::next to exhaustion collecting the
produced rows. -/
def CSV.runAll (csv : CSV) : List String → Row → PanicOr (List Row)
  | [], _ => .ok []
  | line :: rest, row =>
    match csv.parseLine line row with
    | .panicked m => .panicked m
    | .ok row2 =>
      match csv.runAll rest row2 with
      | .panicked m => .panicked m
      | .ok rows => .ok (row2 :: rows)

/-- Messages of the thread-pool channels, from src/src/task.rs lines 109-113.
RunTask carries the serialised (flow, stage, task); the payload is modelled by
the stage id and partition id it encodes. -/
inductive ThreadPoolMessage where
  | RunTask (stage_id : Nat) (partition_id : Nat)
  | EndTask
  | TaskEnded
deriving DecidableEq, Repr

/-- One scheduler-visible channel action of Flow::run: a send of a message to
the dispatch channel of a worker thread, or a receive from the shared
response channel. Flow::run and Stage::run only ever send; the receive
constructor exists so that the absence of any receive is statable. -/
inductive SchedEvent where
  | send (thread_id : Nat) (msg : ThreadPoolMessage)
  | recvResponse
deriving DecidableEq, Repr

/-- Recogniser for a RunTask dispatch event. -/
def SchedEvent.isRunTaskSend : SchedEvent → Bool
  | .send _ (.RunTask _ _) => true
  | _ => false

/-- Stage, from src/src/task.rs lines 38-43. -/
structure Stage where
  head_node_id : Nat
  npartitions_producer : Nat
  npartitions_consumer : Nat
deriving DecidableEq, Repr

/-- Stage::run, from src/src/task.rs lines 56-78: for every producer
partition of the stage, serialise (flow, stage, task) and send RunTask to the
worker chosen by partition_id mod pool size; the function returns without
waiting on anything. -/
def Stage.run (pool_size : Nat) (stage : Stage) : List SchedEvent :=
  (List.range stage.npartitions_producer).map
    (fun partition_id =>
      .send (partition_id % pool_size) (.RunTask stage.head_node_id partition_id))

/-- Flow::run, from src/src/task.rs lines 29-34: runs every stage in order;
the channel trace is the concatenation of the dispatch events of each stage.
The response channel t2s_channel_rx is never read, so the TaskEnded
acknowledgements the workers send are never counted. -/
def Flow.run (pool_size : Nat) (stages : List Stage) : List SchedEvent :=
  (stages.map (Stage.run pool_size)).flatten

/-! Column resolution, from src/src/qst.rs. -/

/-- Resolved column reference, from src/src/qst.rs lines 14-20. -/
structure QunColumn where
  qun_id : QunId
  col_id : ColId
  datatype : DataType
  qtuple_ix : Nat
deriving DecidableEq, Repr

/-- QueryBlockColidDispenser, from src/src/qst.rs lines 37-59: the same
first-come dense allocation scheme as RegisterAllocator, keyed by QunColumn. -/
structure QueryBlockColidDispenser where
  hashmap : List (QunColumn × Nat)
  next_id : Nat
deriving DecidableEq, Repr

/-- QueryBlockColidDispenser::next_id, from src/src/qst.rs lines 50-58 (the
source method name next_id clashes with the field of the same name, hence the
camel case). -/
def QueryBlockColidDispenser.nextId (d : QueryBlockColidDispenser)
    (quncol : QunColumn) : Nat × QueryBlockColidDispenser :=
  let next_id := d.next_id
  match alookup d.hashmap quncol with
  | some v =>
    if v = next_id then
      (v, { d with next_id := next_id + 1 })
    else
      (v, d)
  | none =>
    (next_id, { hashmap := d.hashmap ++ [(quncol, next_id)], next_id := next_id + 1 })

/-- Table descriptor as consumed by resolve_column. Modelled from the spec:
metadata.rs is not under src/; the catalog hands out column descriptors with
name, column id and datatype, and get_coldesc(name) is the lookup by name. -/
structure TableDesc where
  columns : List (String × ColId × DataType)
deriving DecidableEq, Repr

/-- Lookup of a column descriptor by name. Modelled from the spec. -/
def TableDesc.get_coldesc (t : TableDesc) (colname : String) : Option (ColId × DataType) :=
  alookup t.columns colname

/-- Quantifier (bound table reference). Modelled partly from the spec: the
Qun struct and matches_name_or_alias live in ast.rs which is not under src/;
a quantifier matches a prefix by its table name or by its alias (the field is
named aliasName because alias is a command token). column_map is the per-qun
map from ColId to qtuple offset that resolve_column fills. -/
structure Qun where
  id : QunId
  name : String
  aliasName : Option String
  tabledesc : TableDesc
  column_map : List (ColId × Nat)
deriving DecidableEq, Repr

/-- Qun::matches_name_or_alias. Modelled from the spec. -/
def Qun.matches_name_or_alias (q : Qun) (pfx : String) : Bool :=
  decide (q.name = pfx) || decide (q.aliasName = some pfx)

/-- dquote, from src/src/qst.rs lines 33-35. -/
def dquote (s : String) : String :=
  "\"" ++ s ++ "\""

/-- ColumnNotFound message of resolve_column, from src/src/qst.rs lines
158-165. -/
def columnNotFoundMsg (pfx : Option String) (colname : String) : String :=
  let colstr :=
    match pfx with
    | some p => p ++ "." ++ colname
    | none => colname
  "Column " ++ colstr ++ " not found in any table."

/-- ColumnAmbiguous message of resolve_column, from src/src/qst.rs lines
150-153. -/
def columnAmbiguousMsg (colname : String) : String :=
  "Column " ++ dquote colname ++ " found in multiple tables. Use tablename prefix to disambiguate."

/-- Per-quantifier candidate of resolve_column, from src/src/qst.rs lines
110-136: with a prefix, only a quantifier matching the prefix by name or
alias and holding the column produces a candidate; without a prefix, every
quantifier holding the column does. -/
def curvalOf (q : Qun) (pfx : Option String) (colname : String) : Option QunColumn :=
  match pfx with
  | some p =>
    if q.matches_name_or_alias p then
      match q.tabledesc.get_coldesc colname with
      | some cd => some ⟨q.id, cd.1, cd.2, 0⟩
      | none => none
    else
      none
  | none =>
    match q.tabledesc.get_coldesc colname with
    | some cd => some ⟨q.id, cd.1, cd.2, 0⟩
    | none => none

/-- Loop of QueryBlock::resolve_column, from src/src/qst.rs lines 106-156:
the quantifiers are scanned in order; the first candidate is recorded (and
the dispenser and the column_map of that quantifier are updated); a second
candidate aborts with the ambiguity error; no candidate at all yields the
not-found error. The processed quantifiers are accumulated to model the
interior-mutable column_map updates. -/
def resolveColumnGo (pfx : Option String) (colname : String) :
    List Qun → Option QunColumn → QueryBlockColidDispenser → List Qun →
    Except String (QunColumn × List Qun × QueryBlockColidDispenser)
  | [], retval, d, acc =>
    match retval with
    | some r => .ok (r, acc.reverse, d)
    | none => .error (columnNotFoundMsg pfx colname)
  | q :: rest, retval, d, acc =>
    match curvalOf q pfx colname with
    | some c =>
      match retval with
      | none =>
        let r := d.nextId c
        let q2 := { q with column_map := q.column_map ++ [(c.col_id, r.1)] }
        resolveColumnGo pfx colname rest (some c) r.2 (q2 :: acc)
      | some _ => .error (columnAmbiguousMsg colname)
    | none => resolveColumnGo pfx colname rest retval d (q :: acc)

/-- QueryBlock::resolve_column, from src/src/qst.rs lines 103-166, over the
quantifiers of the block. -/
def QueryBlock.resolve_column (quns : List Qun) (d : QueryBlockColidDispenser)
    (pfx : Option String) (colname : String) :
    Except String (QunColumn × List Qun × QueryBlockColidDispenser) :=
  resolveColumnGo pfx colname quns none d []

/-! Lowering and stage formation, from src/src/pop.rs lines 332-368. -/

/-- Logical operator kinds: the variants matched by POP::compile_lop
(src/src/pop.rs lines 354-361); lop.rs itself is not under src/. -/
inductive LOPKind where
  | tableScan
  | hashJoin
  | repartition
  | aggregation
deriving DecidableEq, Repr

mutual
/-- Logical plan subtree: an LOP node with its ordered children. -/
inductive LOPTree where
  | node (kind : LOPKind) (children : LOPForest)

/-- Ordered list of logical children. -/
inductive LOPForest where
  | nil
  | cons (head : LOPTree) (tail : LOPForest)
end

/-- Kind of the root node of a subtree. -/
def LOPTree.kind : LOPTree → LOPKind
  | .node k _ => k

/-- Children of the root node of a subtree. -/
def LOPTree.children : LOPTree → LOPForest
  | .node _ cs => cs

/-- Physical operator kinds, from src/src/pop.rs lines 33-40; the two scan
variants CSV and CSVDir are both written scan here, the catalog choice
between them does not affect stage formation. -/
inductive POPKind where
  | scan
  | hashJoin
  | repartition
  | aggregation
deriving DecidableEq, Repr

/-- Operator kind added for each logical node: compile_scan, compile_join,
compile_repartition and compile_aggregation each add exactly one POP node of
the corresponding variant (src/src/pop.rs lines 370-520). -/
def popOf : LOPKind → POPKind
  | .tableScan => .scan
  | .hashJoin => .hashJoin
  | .repartition => .repartition
  | .aggregation => .aggregation

/-- One stage record. Modelled from the spec: stage.rs is not under src/; a
stage stores its parent stage and, once set, its root POP key. -/
structure StageInfo where
  parent : Option StageId
  root_pop : Option Nat
deriving DecidableEq, Repr

/-- Stage graph: the stages in allocation order, addressed by index.
Modelled from the spec (stage.rs is not under src/): add_stage appends a new
rootless stage with the given parent and returns its id, set_pop_key records
the root POP key of a stage. -/
structure StageGraph where
  stages : List StageInfo
deriving DecidableEq, Repr

/-- StageGraph::add_stage. Modelled from the spec. -/
def StageGraph.add_stage (sg : StageGraph) (parent : Option StageId) :
    StageGraph × StageId :=
  (⟨sg.stages ++ [⟨parent, none⟩]⟩, sg.stages.length)

/-- StageGraph::set_pop_key. Modelled from the spec. -/
def StageGraph.set_pop_key (sg : StageGraph) (sid : StageId) (pk : Nat) : StageGraph :=
  match sg.stages[sid]? with
  | some s => ⟨sg.stages.set sid ⟨s.parent, some pk⟩⟩
  | none => sg

/-- Compilation state of POP::compile_lop: the POP nodes added so far (a POP
key is the insertion index of its node, mirroring the stable slotmap keys)
and the stage graph. -/
structure CompSt where
  pops : List POPKind
  sg : StageGraph
deriving DecidableEq, Repr

mutual
/-- POP::compile_lop, from src/src/pop.rs lines 332-368: a Repartition node
allocates a new stage whose parent is the current stage and its children
recurse with the new stage as their current stage; any other node passes the
unchanged current stage to its children; children are compiled first; then
one POP node is added for the current logical node; and when a new stage was
allocated its root is set to the key of that node. -/
def compile_lop : LOPTree → StageId → CompSt → CompSt × Nat
  | .node kind cs, stage_id, st =>
    let p :=
      if kind = .repartition then
        let r := st.sg.add_stage (some stage_id)
        (({ st with sg := r.1 } : CompSt), r.2)
      else
        (st, stage_id)
    let st1 := p.1
    let child_stage_id := p.2
    let q := compile_forest cs child_stage_id st1
    let st2 := q.1
    let pop_key := st2.pops.length
    let st3 : CompSt := { st2 with pops := st2.pops ++ [popOf kind] }
    let st4 : CompSt :=
      if stage_id ≠ child_stage_id then
        { st3 with sg := st3.sg.set_pop_key child_stage_id pop_key }
      else
        st3
    (st4, pop_key)

/-- Child loop of compile_lop: compile the children in order, collecting
their POP keys. -/
def compile_forest : LOPForest → StageId → CompSt → CompSt × List Nat
  | .nil, _, st => (st, [])
  | .cons t f, sid, st =>
    let r := compile_lop t sid st
    let r2 := compile_forest f sid r.1
    (r2.1, r.2 :: r2.2)
end

mutual
/-- Number of Repartition nodes in a logical subtree. -/
def countRepart : LOPTree → Nat
  | .node kind cs => (if kind = .repartition then 1 else 0) + countRepartF cs

/-- Number of Repartition nodes in a forest. -/
def countRepartF : LOPForest → Nat
  | .nil => 0
  | .cons t f => countRepart t + countRepartF f
end

/-- Number of stages that record the given POP key as their root. -/
def rootsOf (st : CompSt) (pk : Nat) : Nat :=
  st.sg.stages.countP (fun s => s.root_pop == some pk)

/-- Wellformedness of one stage record against a POP list: a recorded root
must be a Repartition POP key. -/
def rootOkB (pops : List POPKind) (s : StageInfo) : Bool :=
  match s.root_pop with
  | none => true
  | some pk => pops[pk]? == some POPKind.repartition

/-- Stage-graph invariant of the compilation: every recorded stage root is a
Repartition POP key, and every Repartition POP key is the root of exactly
one stage. -/
def CompSt.invB (st : CompSt) : Bool :=
  st.sg.stages.all (rootOkB st.pops) &&
  (List.range st.pops.length).all (fun pk =>
    if st.pops[pk]? == some POPKind.repartition then rootsOf st pk == 1 else true)

end RustFlare

namespace RustFlare

/-! Theorems. -/

/-- Lookup in an association list extended on the right with a fresh key finds
the new binding. -/
theorem alookup_append_fresh {κ ν : Type} [DecidableEq κ]
    (l : List (κ × ν)) (k : κ) (v : ν) (h : alookup l k = none) :
    alookup (l ++ [(k, v)]) k = some v := by
  induction l with
  | nil => simp [alookup]
  | cons e rest ih =>
    by_cases hk : e.1 = k
    · simp [alookup, hk] at h
    · simp [alookup, hk] at h ⊢
      exact ih h

/-- A none lookup means the key is absent from the key list. -/
theorem alookup_none_not_mem {κ ν : Type} [DecidableEq κ]
    (l : List (κ × ν)) (k : κ) (h : alookup l k = none) :
    k ∉ l.map Prod.fst := by
  induction l with
  | nil => simp
  | cons e rest ih =>
    by_cases hk : e.1 = k
    · simp [alookup, hk] at h
    · simp [alookup, hk] at h
      intro hmem
      rcases List.mem_cons.mp hmem with h1 | h1
      · exact hk h1.symm
      · exact (ih h) h1

/-- A some lookup exhibits a member of the association list. -/
theorem alookup_some_mem {κ ν : Type} [DecidableEq κ]
    (l : List (κ × ν)) (k : κ) (v : ν) (h : alookup l k = some v) :
    (k, v) ∈ l := by
  induction l with
  | nil => simp [alookup] at h
  | cons e rest ih =>
    obtain ⟨k1, v1⟩ := e
    by_cases hk : k1 = k
    · simp [alookup, hk] at h
      subst hk
      subst h
      exact List.mem_cons_self _ _
    · simp [alookup, hk] at h
      exact List.mem_cons.mpr (Or.inr (ih h))

/-- When the value list is duplicate-free, a value determines its key. -/
theorem mem_nodup_snd_inj {κ ν : Type}
    (l : List (κ × ν)) (hnd : (l.map Prod.snd).Nodup)
    (a b : κ) (v : ν) (ha : (a, v) ∈ l) (hb : (b, v) ∈ l) : a = b := by
  induction l with
  | nil => simp at ha
  | cons e rest ih =>
    simp [List.map_cons] at hnd
    rcases List.mem_cons.mp ha with ha1 | ha1 <;>
      rcases List.mem_cons.mp hb with hb1 | hb1
    · rw [← hb1] at ha1
      exact congrArg Prod.fst ha1
    · exfalso
      apply hnd.1 b
      have hv : v = e.2 := congrArg Prod.snd ha1
      rw [hv] at hb1
      exact hb1
    · exfalso
      apply hnd.1 a
      have hv : v = e.2 := congrArg Prod.snd hb1
      rw [hv] at ha1
      exact ha1
    · exact ih hnd.2 ha1 hb1

/-- Unfolding of get_id when the key is present and its id equals next_id. -/
theorem get_id_some_eq (ra : RegisterAllocator) (qc : QunCol) (v : RegisterId)
    (h : alookup ra.hashmap qc = some v) (hv : v = ra.next_id) :
    ra.get_id qc = (v, { ra with next_id := ra.next_id + 1 }) := by
  simp [RegisterAllocator.get_id, h, hv]

/-- Unfolding of get_id when the key is present with an id below next_id. -/
theorem get_id_some_ne (ra : RegisterAllocator) (qc : QunCol) (v : RegisterId)
    (h : alookup ra.hashmap qc = some v) (hv : v ≠ ra.next_id) :
    ra.get_id qc = (v, ra) := by
  simp [RegisterAllocator.get_id, h, hv]

/-- Unfolding of get_id when the key is absent. -/
theorem get_id_none (ra : RegisterAllocator) (qc : QunCol)
    (h : alookup ra.hashmap qc = none) :
    ra.get_id qc =
      (ra.next_id, ⟨ra.hashmap ++ [(qc, ra.next_id)], ra.next_id + 1⟩) := by
  simp [RegisterAllocator.get_id, h]

/-- Components of the allocator invariant. -/
theorem invB_spec (ra : RegisterAllocator) (h : ra.invB = true) :
    (ra.hashmap.map Prod.fst).Nodup ∧
    ra.hashmap.map Prod.snd = List.range ra.hashmap.length ∧
    ra.next_id = ra.hashmap.length := by
  simp [RegisterAllocator.invB] at h
  exact ⟨h.1.1, h.1.2, h.2⟩

/-- Under the invariant, every stored id is below the map size. -/
theorem alookup_some_lt (ra : RegisterAllocator) (h : ra.invB = true)
    (qc : QunCol) (v : RegisterId) (hl : alookup ra.hashmap qc = some v) :
    v < ra.hashmap.length := by
  have hm := alookup_some_mem _ _ _ hl
  have hv := (invB_spec ra h).2.1
  have hmem : v ∈ ra.hashmap.map Prod.snd := List.mem_map.mpr ⟨(qc, v), hm, rfl⟩
  rw [hv] at hmem
  exact List.mem_range.mp hmem

/-- Claim C9: RegisterAllocator::get_id is idempotent per key (a repeated call
returns the same id and leaves the allocator unchanged), the first call for a
fresh key returns the next unused dense index, namely the number of keys
allocated so far, appending the key in first-occurrence order, the invariant
that ids in insertion order are exactly 0, 1, ... is preserved from
RegisterAllocator::new, a present key always gets its stored id back, and two
different keys never share an id. -/
theorem c9_register_allocator_dense_idempotent :
    (∀ (ra : RegisterAllocator) (qc : QunCol),
      ((ra.get_id qc).2).get_id qc = ((ra.get_id qc).1, (ra.get_id qc).2)) ∧
    (RegisterAllocator.new.invB = true) ∧
    (∀ (ra : RegisterAllocator) (qc : QunCol),
      ra.invB = true → ((ra.get_id qc).2).invB = true) ∧
    (∀ (ra : RegisterAllocator) (qc : QunCol),
      ra.invB = true → alookup ra.hashmap qc = none →
        (ra.get_id qc).1 = ra.hashmap.length ∧
        (ra.get_id qc).2.hashmap = ra.hashmap ++ [(qc, ra.hashmap.length)]) ∧
    (∀ (ra : RegisterAllocator) (qc : QunCol) (v : RegisterId),
      alookup ra.hashmap qc = some v → (ra.get_id qc).1 = v) ∧
    (∀ (ra : RegisterAllocator) (q1 q2 : QunCol) (v1 v2 : RegisterId),
      ra.invB = true → q1 ≠ q2 →
        alookup ra.hashmap q1 = some v1 → alookup ra.hashmap q2 = some v2 →
        v1 ≠ v2) := by
  refine ⟨?_, ?_, ?_, ?_, ?_, ?_⟩
  · -- idempotence per key
    intro ra qc
    cases h : alookup ra.hashmap qc with
    | some v =>
      by_cases hv : v = ra.next_id
      · rw [get_id_some_eq ra qc v h hv]
        show RegisterAllocator.get_id ⟨ra.hashmap, ra.next_id + 1⟩ qc
          = (v, ⟨ra.hashmap, ra.next_id + 1⟩)
        rw [get_id_some_ne ⟨ra.hashmap, ra.next_id + 1⟩ qc v h
          (by show v ≠ ra.next_id + 1; rw [hv]; exact Nat.ne_of_lt (Nat.lt_succ_self _))]
      · rw [get_id_some_ne ra qc v h hv]
        show ra.get_id qc = (v, ra)
        rw [get_id_some_ne ra qc v h hv]
    | none =>
      rw [get_id_none ra qc h]
      have h2 : alookup (ra.hashmap ++ [(qc, ra.next_id)]) qc = some ra.next_id :=
        alookup_append_fresh _ _ _ h
      show RegisterAllocator.get_id ⟨ra.hashmap ++ [(qc, ra.next_id)], ra.next_id + 1⟩ qc
        = (ra.next_id, ⟨ra.hashmap ++ [(qc, ra.next_id)], ra.next_id + 1⟩)
      rw [get_id_some_ne ⟨ra.hashmap ++ [(qc, ra.next_id)], ra.next_id + 1⟩ qc _ h2
        (by show ra.next_id ≠ ra.next_id + 1; exact Nat.ne_of_lt (Nat.lt_succ_self _))]
  · -- the fresh allocator satisfies the invariant
    decide
  · -- get_id preserves the invariant
    intro ra qc h
    obtain ⟨hnd, hrange, hlen⟩ := invB_spec ra h
    cases hl : alookup ra.hashmap qc with
    | some v =>
      have hlt : v < ra.hashmap.length := alookup_some_lt ra h qc v hl
      have hv : v ≠ ra.next_id := by
        rw [hlen]
        exact Nat.ne_of_lt hlt
      rw [get_id_some_ne ra qc v hl hv]
      exact h
    | none =>
      rw [get_id_none ra qc hl]
      have hfresh : qc ∉ ra.hashmap.map Prod.fst := alookup_none_not_mem _ _ hl
      have hnd2 : ((ra.hashmap ++ [(qc, ra.next_id)]).map Prod.fst).Nodup := by
        rw [List.map_append]
        simp only [List.map_cons, List.map_nil]
        rw [List.nodup_append]
        refine ⟨hnd, List.nodup_singleton qc, ?_⟩
        intro a ha hb
        simp only [List.mem_singleton] at hb
        subst hb
        exact hfresh ha
      have hr2 : ((ra.hashmap ++ [(qc, ra.next_id)]).map Prod.snd)
          = List.range ((ra.hashmap ++ [(qc, ra.next_id)]).length) := by
        rw [List.map_append, List.length_append]
        simp only [List.map_cons, List.map_nil, List.length_cons, List.length_nil]
        rw [hrange, hlen, List.range_succ]
      show RegisterAllocator.invB ⟨ra.hashmap ++ [(qc, ra.next_id)], ra.next_id + 1⟩ = true
      unfold RegisterAllocator.invB
      simp only [Bool.and_eq_true, decide_eq_true_eq]
      refine ⟨⟨hnd2, hr2⟩, ?_⟩
      simp [hlen]
  · -- a fresh key gets the next dense index, appended in order
    intro ra qc h hl
    obtain ⟨hnd, hrange, hlen⟩ := invB_spec ra h
    rw [get_id_none ra qc hl]
    exact ⟨hlen, by rw [hlen]⟩
  · -- a present key returns its stored id
    intro ra qc v hl
    by_cases hv : v = ra.next_id
    · rw [get_id_some_eq ra qc v hl hv]
    · rw [get_id_some_ne ra qc v hl hv]
  · -- distinct keys never share an id
    intro ra q1 q2 v1 v2 h hne h1 h2 heq
    obtain ⟨hnd, hrange, hlen⟩ := invB_spec ra h
    have hm1 := alookup_some_mem _ _ _ h1
    have hm2 := alookup_some_mem _ _ _ h2
    have hsnd : (ra.hashmap.map Prod.snd).Nodup := by
      rw [hrange]
      exact List.nodup_range _
    have hm2b : (q2, v1) ∈ ra.hashmap := by
      rw [heq]
      exact hm2
    exact hne (mem_nodup_snd_inj _ hsnd q1 q2 v1 hm1 hm2b)

/-- Witness for the C9 theorem at a concrete allocator holding two keys: the
invariant holds, the key (2, 5) is fresh, and its first get_id call returns
the next dense index 2. -/
theorem c9_register_allocator_dense_idempotent_witness :
    RegisterAllocator.invB ⟨[((0, 0), 0), ((1, 2), 1)], 2⟩ = true ∧
    alookup ([((0, 0), 0), ((1, 2), 1)] : List (QunCol × RegisterId)) (2, 5) = none ∧
    ((⟨[((0, 0), 0), ((1, 2), 1)], 2⟩ : RegisterAllocator).get_id (2, 5)).1 = 2 :=
  ⟨by decide, by decide,
    (c9_register_allocator_dense_idempotent.2.2.2.1
      ⟨[((0, 0), 0), ((1, 2), 1)], 2⟩ (2, 5) (by decide) (by decide)).1⟩

/-- Claim C10: Env::get_boolean_option on a STR value returns Ok(true) exactly
when the uppercased string is TRUE, T, YES or Y, returns Ok(false) for every
other string without an error, and returns Err exactly on non-STR values; and
Env::set_option returns Err for every option name whose uppercasing is
neither PARALLEL_DEGREE nor PARSE_ONLY. -/
theorem c10_env_options :
    (∀ (nm s : String),
      Env.get_boolean_option nm (.STR s) = .ok (decide (s.toUpper ∈ truthyStrings))) ∧
    (∀ (nm : String) (v : Datum),
      (∃ s, v = .STR s) ∨ ∃ msg, Env.get_boolean_option nm v = .error msg) ∧
    (∀ (settings : EnvSettings) (nm : String) (v : Datum),
      nm.toUpper = "PARALLEL_DEGREE" ∨ nm.toUpper = "PARSE_ONLY" ∨
        ∃ msg, Env.setOption settings nm v = .error msg) := by
  refine ⟨?_, ?_, ?_⟩
  · intro nm s
    have hmem : s.toUpper ∈ truthyStrings ↔
        (s.toUpper = "TRUE" ∨ s.toUpper = "T" ∨ s.toUpper = "YES" ∨ s.toUpper = "Y") := by
      simp [truthyStrings]
    by_cases h : s.toUpper = "TRUE" ∨ s.toUpper = "T" ∨ s.toUpper = "YES" ∨ s.toUpper = "Y"
    · simp only [Env.get_boolean_option, if_pos h]
      congr 1
      exact (decide_eq_true (hmem.mpr h)).symm
    · simp only [Env.get_boolean_option, if_neg h]
      congr 1
      exact (decide_eq_false (fun hm => h (hmem.mp hm))).symm
  · intro nm v
    cases v with
    | STR s => exact Or.inl ⟨s, rfl⟩
    | INT i => exact Or.inr ⟨_, rfl⟩
    | BOOL b => exact Or.inr ⟨_, rfl⟩
    | DOUBLE w f => exact Or.inr ⟨_, rfl⟩
    | NULL => exact Or.inr ⟨_, rfl⟩
  · intro settings nm v
    by_cases h1 : nm.toUpper = "PARALLEL_DEGREE"
    · exact Or.inl h1
    by_cases h2 : nm.toUpper = "PARSE_ONLY"
    · exact Or.inr (Or.inl h2)
    refine Or.inr (Or.inr ⟨"Invalid option specified: " ++ nm.toUpper ++ ".", ?_⟩)
    simp only [Env.setOption]
    rw [if_neg h1, if_neg h2]

/-- Claim C1 (code bug): with a predicate that evaluates to BOOL(false) on the
produced row, POPKey::next still returns Ok(true) and leaves the row as the
operator wrote it, so the row that failed the predicates is reported as
produced; and with emitcols present, the emit row is computed but does not
replace the output row. -/
theorem c1_next_reports_row_that_fails_predicates :
    (POPKey.eval_predicates ⟨some [⟨[.pushLit (.BOOL false)]⟩], none, 1⟩ ⟨[.INT 1]⟩
      = .ok false) ∧
    (POPKey.next ⟨some [⟨[.pushLit (.BOOL false)]⟩], none, 1⟩ [⟨[.INT 1]⟩] ⟨[.NULL]⟩
      = .ok (true, [], ⟨[.INT 1]⟩)) ∧
    (POPKey.eval_emitcols ⟨none, some [⟨[.pushLit (.INT 42)]⟩], 1⟩ ⟨[.INT 1]⟩
      = some ⟨[.INT 42]⟩) ∧
    (POPKey.next ⟨none, some [⟨[.pushLit (.INT 42)]⟩], 1⟩ [⟨[.INT 1]⟩] ⟨[.NULL]⟩
      = .ok (true, [], ⟨[.INT 1]⟩)) := by
  refine ⟨rfl, rfl, rfl, rfl⟩

/-- Claim C6 (code bug): a predicate that evaluates to a non-BOOL datum makes
POPKey::eval_predicates hit the panic branch of the source (message: No
bool?), aborting the worker thread, instead of returning a TypeMismatch Err
to the scheduler. -/
theorem c6_nonbool_predicate_hits_panic_branch :
    (POPKey.eval_predicates ⟨some [⟨[.pushLit (.INT 5)]⟩], none, 1⟩ ⟨[.INT 1]⟩
      = .panicked "No bool?") ∧
    (POPKey.next ⟨some [⟨[.pushLit (.INT 5)]⟩], none, 1⟩ [⟨[.INT 1]⟩] ⟨[.NULL]⟩
      = .panicked "No bool?") := by
  refine ⟨rfl, rfl⟩

/-- Claim C4 (code bug): Task::run performs exactly one next call on the root
of the stage: with a root that will yield two rows, the run leaves the second
row unconsumed, and the root still produces a row afterwards, so the root is
not pulled to exhaustion. -/
theorem c4_task_run_pulls_root_once :
    (∀ (n : Nat) (r1 r2 : Row) (rest : List Row) (task_row : Row),
      Task.run ⟨none, none, n⟩ (r1 :: r2 :: rest) task_row = .ok (r2 :: rest, r1)) ∧
    (Task.run ⟨none, none, 1⟩ [⟨[.INT 1]⟩, ⟨[.INT 2]⟩] ⟨[.NULL]⟩
      = .ok ([⟨[.INT 2]⟩], ⟨[.INT 1]⟩)) ∧
    (POPKey.next ⟨none, none, 1⟩ [⟨[.INT 2]⟩] ⟨[.INT 1]⟩
      = .ok (true, [], ⟨[.INT 2]⟩)) := by
  refine ⟨fun n r1 r2 rest task_row => rfl, rfl, rfl⟩

/-- Claim C3 (code bug): HashJoin::next never returns Ok(false): every call
drains whatever the children still hold and returns Ok(true), even when the
probe child is already exhausted (while a direct pull on the exhausted probe
child itself reports false). -/
theorem c3_hashjoin_drains_children_never_exhausts :
    (∀ (probe build : ChildState) (task_row : Row),
      returnsOkFalse (HashJoin.next probe build task_row) = false) ∧
    (HashJoin.next ⟨⟨none, none, 1⟩, []⟩ ⟨⟨none, none, 1⟩, []⟩ ⟨[]⟩
      = .ok (true, ⟨[]⟩)) ∧
    (POPKey.next ⟨none, none, 1⟩ [] (⟨[]⟩ : Row) = .ok (false, [], ⟨[]⟩)) := by
  refine ⟨?_, rfl, rfl⟩
  intro probe build task_row
  rcases hp : drainChild probe.props probe.rows task_row with m | row1
  · simp [HashJoin.next, hp, returnsOkFalse]
  · rcases hb : drainChild build.props build.rows row1 with m | row2
    · simp [HashJoin.next, hp, hb, returnsOkFalse]
    · simp [HashJoin.next, hp, hb, returnsOkFalse]

/-- Claim C5 (code bug): the first-line skip of CSV::next depends only on the
partition id, not on the header flag: on a headerless two-line file the spec
condition says no line is skipped, yet the partition-0 iterator drops the
first line, and the full scan emits only the row of the second line. -/
theorem c5_csv_skips_first_line_ignoring_header :
    (∀ (csv1 csv2 : CSV) (partition_id : Nat) (lines : List String),
      CSV.initState csv1 partition_id lines = CSV.initState csv2 partition_id lines) ∧
    (specSkipsFirstLine ⟨[.INT, .STR], false, '|', [(0, 0), (1, 1)]⟩ 0 = false) ∧
    (CSV.initState ⟨[.INT, .STR], false, '|', [(0, 0), (1, 1)]⟩ 0 ["1|x", "2|y"]
      = ["2|y"]) ∧
    (CSV.runAll ⟨[.INT, .STR], false, '|', [(0, 0), (1, 1)]⟩
        (CSV.initState ⟨[.INT, .STR], false, '|', [(0, 0), (1, 1)]⟩ 0 ["1|x", "2|y"])
        ⟨[.NULL, .NULL]⟩
      = .ok [⟨[.INT 2, .STR "y"]⟩]) := by
  refine ⟨fun csv1 csv2 partition_id lines => rfl, rfl, rfl, ?_⟩
  decide

/-- Claim C2 (code bug): the channel trace of Flow::run consists exclusively
of RunTask sends: the tasks of every stage, parents included, are dispatched
in one synchronous sweep and the scheduler never reads the response channel,
so no TaskEnded acknowledgement is ever counted before dependent stages are
dispatched. The concrete trace shows a two-stage flow whose second stage is
dispatched immediately after the first. -/
theorem c2_scheduler_never_reads_acks :
    (∀ (pool_size : Nat) (stages : List Stage),
      (Flow.run pool_size stages).all SchedEvent.isRunTaskSend = true) ∧
    (Flow.run 4 [⟨7, 2, 1⟩, ⟨9, 1, 1⟩]
      = [.send 0 (.RunTask 7 0), .send 1 (.RunTask 7 1), .send 0 (.RunTask 9 0)]) := by
  refine ⟨?_, by decide⟩
  intro pool_size stages
  rw [List.all_eq_true]
  intro e he
  have he2 : e ∈ (stages.map (Stage.run pool_size)).flatten := he
  rcases List.mem_flatten.mp he2 with ⟨tr, htr, hetr⟩
  rcases List.mem_map.mp htr with ⟨s, hs, rfl⟩
  simp only [Stage.run] at hetr
  rcases List.mem_map.mp hetr with ⟨pid, hpid, rfl⟩
  rfl

/-- A quantifier whose table lacks the column yields no candidate, with or
without a prefix. -/
theorem curvalOf_none (q : Qun) (pfx : Option String) (colname : String)
    (h : q.tabledesc.get_coldesc colname = none) :
    curvalOf q pfx colname = none := by
  cases pfx with
  | none => simp [curvalOf, h]
  | some p =>
    by_cases hm : q.matches_name_or_alias p
    · simp [curvalOf, hm, h]
    · simp [curvalOf, hm]

/-- Without a prefix, a candidate exists exactly when the table holds the
column. -/
theorem curvalOf_isSome_unprefixed (q : Qun) (colname : String) :
    (curvalOf q none colname).isSome = (q.tabledesc.get_coldesc colname).isSome := by
  cases h : q.tabledesc.get_coldesc colname <;> simp [curvalOf, h]

/-- When every remaining quantifier lacks the column, the resolve loop with
no recorded candidate ends in the not-found error. -/
theorem resolveGo_all_none (pfx : Option String) (colname : String)
    (quns : List Qun) :
    ∀ (d : QueryBlockColidDispenser) (acc : List Qun),
      (∀ q ∈ quns, q.tabledesc.get_coldesc colname = none) →
      resolveColumnGo pfx colname quns none d acc
        = .error (columnNotFoundMsg pfx colname) := by
  induction quns with
  | nil =>
    intro d acc h
    rfl
  | cons q rest ih =>
    intro d acc h
    have hq := curvalOf_none q pfx colname (h q (List.mem_cons_self q rest))
    simp only [resolveColumnGo, hq]
    exact ih d (q :: acc) (fun q2 hq2 => h q2 (List.mem_cons_of_mem q hq2))

/-- With a candidate already recorded, any further candidate in the remaining
quantifiers aborts with the ambiguity error. -/
theorem resolveGo_second_candidate (pfx : Option String) (colname : String)
    (quns : List Qun) :
    ∀ (r : QunColumn) (d : QueryBlockColidDispenser) (acc : List Qun),
      1 ≤ quns.countP (fun q => (curvalOf q pfx colname).isSome) →
      resolveColumnGo pfx colname quns (some r) d acc
        = .error (columnAmbiguousMsg colname) := by
  induction quns with
  | nil =>
    intro r d acc h
    simp at h
  | cons q rest ih =>
    intro r d acc h
    cases hc : curvalOf q pfx colname with
    | some c => simp only [resolveColumnGo, hc]
    | none =>
      have hcount : 1 ≤ rest.countP (fun q => (curvalOf q pfx colname).isSome) := by
        rw [List.countP_cons] at h
        simpa [hc] using h
      simp only [resolveColumnGo, hc]
      exact ih r d (q :: acc) hcount

/-- Counting candidates without a prefix is counting tables that hold the
column. -/
theorem countP_curval_unprefixed (quns : List Qun) (colname : String) :
    quns.countP (fun q => (curvalOf q none colname).isSome)
      = quns.countP (fun q => (q.tabledesc.get_coldesc colname).isSome) := by
  induction quns with
  | nil => rfl
  | cons q rest ih =>
    rw [List.countP_cons, List.countP_cons, ih, curvalOf_isSome_unprefixed]

/-- Two candidates among the quantifiers abort the unprefixed resolve loop
with the ambiguity error. -/
theorem resolveGo_two_candidates (colname : String) (quns : List Qun) :
    ∀ (d : QueryBlockColidDispenser) (acc : List Qun),
      2 ≤ quns.countP (fun q => (curvalOf q none colname).isSome) →
      resolveColumnGo none colname quns none d acc
        = .error (columnAmbiguousMsg colname) := by
  induction quns with
  | nil =>
    intro d acc h
    simp at h
  | cons q rest ih =>
    intro d acc h
    cases hc : curvalOf q none colname with
    | some c =>
      have hpos : (curvalOf q none colname).isSome = true := by
        rw [hc]
        rfl
      have hcount : 1 ≤ rest.countP (fun q => (curvalOf q none colname).isSome) := by
        rw [List.countP_cons_of_pos
          (p := fun q2 => (curvalOf q2 none colname).isSome) rest hpos] at h
        omega
      simp only [resolveColumnGo, hc]
      exact resolveGo_second_candidate none colname rest c _ _ hcount
    | none =>
      have hcount : 2 ≤ rest.countP (fun q => (curvalOf q none colname).isSome) := by
        rw [List.countP_cons] at h
        simpa [hc] using h
      simp only [resolveColumnGo, hc]
      exact ih d (q :: acc) hcount

/-- Claim C8: resolving a column reference fails with the ColumnNotFound
error when no bound table has a column of that name (whatever the prefix),
fails with the ColumnAmbiguous error when an unprefixed name has columns in
at least two bound tables, and on the concrete query select c from T with T
lacking column c the compile-time error is the ColumnNotFound message. -/
theorem c8_resolve_column_errors :
    (∀ (quns : List Qun) (d : QueryBlockColidDispenser) (pfx : Option String)
        (colname : String),
      (∀ q ∈ quns, q.tabledesc.get_coldesc colname = none) →
        QueryBlock.resolve_column quns d pfx colname
          = .error (columnNotFoundMsg pfx colname)) ∧
    (∀ (quns : List Qun) (d : QueryBlockColidDispenser) (colname : String),
      2 ≤ quns.countP (fun q => (q.tabledesc.get_coldesc colname).isSome) →
        QueryBlock.resolve_column quns d none colname
          = .error (columnAmbiguousMsg colname)) ∧
    (QueryBlock.resolve_column
        [⟨0, "T", none, ⟨[("a", (0, DataType.INT)), ("b", (1, DataType.STR))]⟩, []⟩]
        ⟨[], 0⟩ none "c"
      = .error "Column c not found in any table.") := by
  refine ⟨?_, ?_, ?_⟩
  · intro quns d pfx colname h
    exact resolveGo_all_none pfx colname quns d [] h
  · intro quns d colname h
    have h2 : 2 ≤ quns.countP (fun q => (curvalOf q none colname).isSome) := by
      rw [countP_curval_unprefixed]
      exact h
    exact resolveGo_two_candidates colname quns d [] h2
  · decide

/-- Witness for the C8 theorem: the not-found branch with a prefixed
reference, and the ambiguity branch on two tables both holding column a. -/
theorem c8_resolve_column_errors_witness :
    (QueryBlock.resolve_column
        [⟨0, "T", none, ⟨[("b", (1, DataType.STR))]⟩, []⟩]
        ⟨[], 0⟩ (some "T") "c"
      = .error (columnNotFoundMsg (some "T") "c")) ∧
    (QueryBlock.resolve_column
        [⟨0, "R", none, ⟨[("a", (0, DataType.INT))]⟩, []⟩,
         ⟨1, "S", none, ⟨[("a", (0, DataType.INT))]⟩, []⟩]
        ⟨[], 0⟩ none "a"
      = .error (columnAmbiguousMsg "a")) :=
  ⟨c8_resolve_column_errors.1 _ _ _ _ (by decide),
   c8_resolve_column_errors.2.1 _ _ _ (by decide)⟩

/-- A successful optional index lookup bounds the index. -/
theorem getElem?_some_lt {α : Type} {l : List α} {i : Nat} {a : α}
    (h : l[i]? = some a) : i < l.length := by
  by_cases hlt : i < l.length
  · exact hlt
  · rw [List.getElem?_eq_none (Nat.le_of_not_lt hlt)] at h
    cases h

/-- Reading a one-element extension at the old length finds the new
element. -/
theorem getElem?_snoc_length {α : Type} (l : List α) (a : α) :
    (l ++ [a])[l.length]? = some a := by
  rw [List.getElem?_append_right (Nat.le_refl _)]
  simp

/-- all is preserved by set when the new element satisfies the predicate. -/
theorem all_set_of_all {α : Type} (l : List α) (p : α → Bool) (i : Nat) (a : α)
    (hl : l.all p = true) (ha : p a = true) : (l.set i a).all p = true := by
  induction l generalizing i with
  | nil => rfl
  | cons x rest ih =>
    cases i with
    | zero =>
      show (a :: rest).all p = true
      simp only [List.all_cons, Bool.and_eq_true] at hl ⊢
      exact ⟨ha, hl.2⟩
    | succ n =>
      show (x :: rest.set n a).all p = true
      simp only [List.all_cons, Bool.and_eq_true] at hl ⊢
      exact ⟨hl.1, ih n hl.2⟩

/-- countP after replacing an element that did not satisfy the predicate. -/
theorem countP_set_of_neg {α : Type} (p : α → Bool) (l : List α) (i : Nat) (a b : α)
    (hb : l[i]? = some b) (hpb : p b = false) :
    (l.set i a).countP p = l.countP p + (if p a then 1 else 0) := by
  induction l generalizing i with
  | nil => cases hb
  | cons x rest ih =>
    cases i with
    | zero =>
      have hxb : x = b := by simpa using hb
      subst hxb
      show (a :: rest).countP p = (x :: rest).countP p + (if p a then 1 else 0)
      rw [List.countP_cons, List.countP_cons, hpb]
      simp
    | succ n =>
      have hb2 : rest[n]? = some b := by simpa using hb
      show (x :: rest.set n a).countP p = (x :: rest).countP p + (if p a then 1 else 0)
      rw [List.countP_cons, List.countP_cons, ih n hb2]
      omega

/-- Wellformedness of a stage record is stable under extending the POP
list. -/
theorem rootOkB_append (pops l2 : List POPKind) (s : StageInfo)
    (h : rootOkB pops s = true) : rootOkB (pops ++ l2) s = true := by
  unfold rootOkB at h ⊢
  cases hr : s.root_pop with
  | none => rfl
  | some pk =>
    rw [hr] at h
    have h2 : (pops[pk]? == some POPKind.repartition) = true := h
    have heq : pops[pk]? = some POPKind.repartition := by simpa using h2
    have hlt : pk < pops.length := getElem?_some_lt heq
    show ((pops ++ l2)[pk]? == some POPKind.repartition) = true
    rw [List.getElem?_append_left hlt]
    simpa using heq

/-- Wellformedness of all stage records is stable under extending the POP
list. -/
theorem all_rootOk_append (stages : List StageInfo) (pops l2 : List POPKind)
    (h : stages.all (rootOkB pops) = true) :
    stages.all (rootOkB (pops ++ l2)) = true := by
  rw [List.all_eq_true] at h ⊢
  intro s hs
  exact rootOkB_append pops l2 s (h s hs)

/-- Components of the compilation invariant. -/
theorem invB_parts (st : CompSt) (h : st.invB = true) :
    st.sg.stages.all (rootOkB st.pops) = true ∧
    ∀ pk, st.pops[pk]? = some POPKind.repartition → rootsOf st pk = 1 := by
  unfold CompSt.invB at h
  rw [Bool.and_eq_true] at h
  refine ⟨h.1, ?_⟩
  intro pk hpk
  have hlt : pk < st.pops.length := getElem?_some_lt hpk
  have h2 := h.2
  rw [List.all_eq_true] at h2
  have h3 := h2 pk (List.mem_range.mpr hlt)
  rw [hpk] at h3
  simpa using h3

/-- Reassembly of the compilation invariant. -/
theorem invB_intro (st : CompSt)
    (h1 : st.sg.stages.all (rootOkB st.pops) = true)
    (h2 : ∀ pk, pk < st.pops.length →
      st.pops[pk]? = some POPKind.repartition → rootsOf st pk = 1) :
    st.invB = true := by
  unfold CompSt.invB
  rw [Bool.and_eq_true]
  refine ⟨h1, ?_⟩
  rw [List.all_eq_true]
  intro pk hpk
  rw [List.mem_range] at hpk
  by_cases hrep : st.pops[pk]? = some POPKind.repartition
  · simp [hrep, h2 pk hpk hrep]
  · have hf : (st.pops[pk]? == some POPKind.repartition) = false :=
      beq_eq_false_iff_ne.mpr hrep
    simp [hf]

/-- A key at or beyond the POP list roots no stage. -/
theorem rootsOf_zero_of_ge (st : CompSt)
    (h : st.sg.stages.all (rootOkB st.pops) = true)
    (pk : Nat) (hge : st.pops.length ≤ pk) : rootsOf st pk = 0 := by
  unfold rootsOf
  rw [List.countP_eq_zero]
  intro s hs hps
  have hroot : s.root_pop = some pk := by simpa using hps
  rw [List.all_eq_true] at h
  have hok := h s hs
  unfold rootOkB at hok
  rw [hroot] at hok
  have heq : st.pops[pk]? = some POPKind.repartition := by simpa using hok
  have := getElem?_some_lt heq
  omega

/-- The POP kind of a logical node is Repartition exactly for Repartition
logical nodes. -/
theorem popOf_eq_repartition_iff (k : LOPKind) :
    popOf k = POPKind.repartition ↔ k = LOPKind.repartition := by
  cases k <;> simp [popOf]

/-- Appending one rootless stage preserves the compilation invariant. -/
theorem invB_add_stage (st : CompSt) (par : Option StageId) (h : st.invB = true) :
    CompSt.invB ⟨st.pops, ⟨st.sg.stages ++ [⟨par, none⟩]⟩⟩ = true := by
  obtain ⟨h1, h2⟩ := invB_parts st h
  have hall : (st.sg.stages ++ [(⟨par, none⟩ : StageInfo)]).all (rootOkB st.pops) = true := by
    rw [List.all_append]
    simp only [Bool.and_eq_true]
    exact ⟨h1, rfl⟩
  have hcount : ∀ pk, pk < st.pops.length →
      st.pops[pk]? = some POPKind.repartition →
      rootsOf ⟨st.pops, ⟨st.sg.stages ++ [⟨par, none⟩]⟩⟩ pk = 1 := by
    intro pk _ hrep
    show (st.sg.stages ++ [(⟨par, none⟩ : StageInfo)]).countP
        (fun s => s.root_pop == some pk) = 1
    rw [List.countP_append]
    have hz : ([(⟨par, none⟩ : StageInfo)]).countP (fun s => s.root_pop == some pk) = 0 := rfl
    rw [hz, Nat.add_zero]
    exact h2 pk hrep
  exact invB_intro ⟨st.pops, ⟨st.sg.stages ++ [⟨par, none⟩]⟩⟩ hall hcount

mutual
/-- Induction core for compile_lop: stages are append-only with the frame of
pre-existing stages preserved, one stage is added per Repartition node, the
invariant (every Repartition POP roots exactly one stage) is preserved, the
returned POP key is fresh and carries the kind of the node, and a Repartition
node records the new stage with parent sid and root equal to the returned
key at index st.sg.stages.length. -/
theorem compile_lop_spec (t : LOPTree) (sid : Nat) (st : CompSt)
    (hsid : sid < st.sg.stages.length) (hinv : st.invB = true) :
    ((compile_lop t sid st).1.invB = true) ∧
    ((compile_lop t sid st).1.sg.stages.length
        = st.sg.stages.length + countRepart t) ∧
    (∀ i, i < st.sg.stages.length →
        (compile_lop t sid st).1.sg.stages[i]? = st.sg.stages[i]?) ∧
    (∃ l2, (compile_lop t sid st).1.pops = st.pops ++ l2) ∧
    (st.pops.length ≤ (compile_lop t sid st).2) ∧
    ((compile_lop t sid st).1.pops[(compile_lop t sid st).2]?
        = some (popOf t.kind)) ∧
    (t.kind = LOPKind.repartition →
        (compile_lop t sid st).1.sg.stages[st.sg.stages.length]?
          = some ⟨some sid, some (compile_lop t sid st).2⟩) := by
  cases t with
  | node kind cs =>
    by_cases hrep : kind = LOPKind.repartition
    · subst hrep
      have hne : sid ≠ st.sg.stages.length := Nat.ne_of_lt hsid
      have hinvA : CompSt.invB ⟨st.pops, ⟨st.sg.stages ++ [⟨some sid, none⟩]⟩⟩ = true :=
        invB_add_stage st (some sid) hinv
      have hsidA : st.sg.stages.length
          < (⟨st.pops, ⟨st.sg.stages ++ [⟨some sid, none⟩]⟩⟩ : CompSt).sg.stages.length := by
        simp
      obtain ⟨inv2, len2, frame2, hpops2⟩ :=
        compile_forest_spec cs st.sg.stages.length
          ⟨st.pops, ⟨st.sg.stages ++ [⟨some sid, none⟩]⟩⟩ hsidA hinvA
      set st2 := (compile_forest cs st.sg.stages.length
        ⟨st.pops, ⟨st.sg.stages ++ [⟨some sid, none⟩]⟩⟩).1 with hst2
      have len2' : st2.sg.stages.length = st.sg.stages.length + 1 + countRepartF cs := by
        simpa using len2
      obtain ⟨l2, hl2⟩ := hpops2
      have hl2' : st2.pops = st.pops ++ l2 := hl2
      have hns : st2.sg.stages[st.sg.stages.length]? = some ⟨some sid, none⟩ := by
        have h1 := frame2 st.sg.stages.length (by simp)
        rw [h1]
        exact getElem?_snoc_length st.sg.stages ⟨some sid, none⟩
      have hsetkey : st2.sg.set_pop_key st.sg.stages.length st2.pops.length
          = ⟨st2.sg.stages.set st.sg.stages.length ⟨some sid, some st2.pops.length⟩⟩ := by
        unfold StageGraph.set_pop_key
        rw [hns]
      have hstep : compile_lop (.node LOPKind.repartition cs) sid st
          = (⟨st2.pops ++ [POPKind.repartition],
              ⟨st2.sg.stages.set st.sg.stages.length ⟨some sid, some st2.pops.length⟩⟩⟩,
             st2.pops.length) := by
        simp only [compile_lop, if_true, StageGraph.add_stage, popOf]
        rw [← hst2]
        split
        · rw [hsetkey]
        · rename_i hcon
          exact absurd hne hcon
      rw [hstep]
      have hrootsAt : ∀ pk, (st2.sg.stages.set st.sg.stages.length
            ⟨some sid, some st2.pops.length⟩).countP (fun s => s.root_pop == some pk)
          = rootsOf st2 pk
            + (if ((some st2.pops.length : Option Nat) == some pk) then 1 else 0) := by
        intro pk
        exact countP_set_of_neg _ _ _ _ ⟨some sid, none⟩ hns rfl
      obtain ⟨hall2, hcnt2⟩ := invB_parts st2 inv2
      refine ⟨?_, ?_, ?_, ?_, ?_, ?_, ?_⟩
      · -- invariant
        apply invB_intro
        · show (st2.sg.stages.set st.sg.stages.length
            ⟨some sid, some st2.pops.length⟩).all
              (rootOkB (st2.pops ++ [POPKind.repartition])) = true
          apply all_set_of_all
          · exact all_rootOk_append _ _ _ hall2
          · show ((st2.pops ++ [POPKind.repartition])[st2.pops.length]?
              == some POPKind.repartition) = true
            rw [getElem?_snoc_length]
            rfl
        · intro pk hlt hget
          have hlt' : pk < st2.pops.length + 1 := by simpa using hlt
          rcases Nat.lt_succ_iff_lt_or_eq.mp hlt' with hpk | hpk
          · have hget' : st2.pops[pk]? = some POPKind.repartition := by
              rw [List.getElem?_append_left hpk] at hget
              exact hget
            have hold := hcnt2 pk hget'
            show (st2.sg.stages.set st.sg.stages.length
              ⟨some sid, some st2.pops.length⟩).countP (fun s => s.root_pop == some pk) = 1
            rw [hrootsAt pk]
            have hne2 : ((some st2.pops.length : Option Nat) == some pk) = false := by
              have : st2.pops.length ≠ pk := by omega
              simpa using this
            rw [hne2]
            simpa using hold
          · have hzero : rootsOf st2 pk = 0 := by
              rw [hpk]
              exact rootsOf_zero_of_ge st2 hall2 _ (Nat.le_refl _)
            show (st2.sg.stages.set st.sg.stages.length
              ⟨some sid, some st2.pops.length⟩).countP (fun s => s.root_pop == some pk) = 1
            rw [hrootsAt pk, hzero]
            have htrue : ((some st2.pops.length : Option Nat) == some pk) = true := by
              rw [hpk]
              simp
            rw [htrue]
            simp
      · -- stage count
        show (st2.sg.stages.set st.sg.stages.length
          ⟨some sid, some st2.pops.length⟩).length
            = st.sg.stages.length + countRepart (.node LOPKind.repartition cs)
        rw [List.length_set, len2']
        simp [countRepart]
        omega
      · -- frame
        intro i hi
        show (st2.sg.stages.set st.sg.stages.length
          ⟨some sid, some st2.pops.length⟩)[i]? = st.sg.stages[i]?
        rw [List.getElem?_set_ne (Nat.ne_of_lt hi).symm]
        have h1 := frame2 i (by simp; omega)
        rw [h1]
        exact List.getElem?_append_left hi
      · exact ⟨l2 ++ [POPKind.repartition], by rw [hl2', List.append_assoc]⟩
      · show st.pops.length ≤ st2.pops.length
        rw [hl2']
        simp
      · show (st2.pops ++ [POPKind.repartition])[st2.pops.length]?
          = some (popOf (LOPTree.node LOPKind.repartition cs).kind)
        rw [getElem?_snoc_length]
        rfl
      · intro _
        show (st2.sg.stages.set st.sg.stages.length
          ⟨some sid, some st2.pops.length⟩)[st.sg.stages.length]?
            = some ⟨some sid, some st2.pops.length⟩
        apply List.getElem?_set_self
        rw [len2']
        omega
    · -- kind is not Repartition
      obtain ⟨inv2, len2, frame2, hpops2⟩ := compile_forest_spec cs sid st hsid hinv
      set st2 := (compile_forest cs sid st).1 with hst2
      obtain ⟨l2, hl2⟩ := hpops2
      have hl2' : st2.pops = st.pops ++ l2 := hl2
      have hstep : compile_lop (.node kind cs) sid st
          = (⟨st2.pops ++ [popOf kind], st2.sg⟩, st2.pops.length) := by
        simp only [compile_lop, hrep, if_false, ite_false]
        rw [← hst2]
        split
        · rename_i hcon
          exact absurd rfl hcon
        · rfl
      rw [hstep]
      obtain ⟨hall2, hcnt2⟩ := invB_parts st2 inv2
      refine ⟨?_, ?_, ?_, ?_, ?_, ?_, ?_⟩
      · apply invB_intro
        · show st2.sg.stages.all (rootOkB (st2.pops ++ [popOf kind])) = true
          exact all_rootOk_append _ _ _ hall2
        · intro pk hlt hget
          have hlt' : pk < st2.pops.length + 1 := by simpa using hlt
          rcases Nat.lt_succ_iff_lt_or_eq.mp hlt' with hpk | hpk
          · have hget' : st2.pops[pk]? = some POPKind.repartition := by
              rw [List.getElem?_append_left hpk] at hget
              exact hget
            exact hcnt2 pk hget'
          · subst hpk
            rw [getElem?_snoc_length] at hget
            have : popOf kind = POPKind.repartition := by
              injection hget
            exact absurd ((popOf_eq_repartition_iff kind).mp this) hrep
      · show st2.sg.stages.length
          = st.sg.stages.length + countRepart (.node kind cs)
        rw [len2]
        simp [countRepart, hrep]
      · intro i hi
        exact frame2 i hi
      · exact ⟨l2 ++ [popOf kind], by rw [hl2', List.append_assoc]⟩
      · show st.pops.length ≤ st2.pops.length
        rw [hl2']
        simp
      · show (st2.pops ++ [popOf kind])[st2.pops.length]?
          = some (popOf (LOPTree.node kind cs).kind)
        rw [getElem?_snoc_length]
        rfl
      · intro hcon
        exact absurd hcon hrep

/-- Induction core for the child loop of compile_lop. -/
theorem compile_forest_spec (f : LOPForest) (sid : Nat) (st : CompSt)
    (hsid : sid < st.sg.stages.length) (hinv : st.invB = true) :
    ((compile_forest f sid st).1.invB = true) ∧
    ((compile_forest f sid st).1.sg.stages.length
        = st.sg.stages.length + countRepartF f) ∧
    (∀ i, i < st.sg.stages.length →
        (compile_forest f sid st).1.sg.stages[i]? = st.sg.stages[i]?) ∧
    (∃ l2, (compile_forest f sid st).1.pops = st.pops ++ l2) := by
  cases f with
  | nil =>
    refine ⟨hinv, by simp [countRepartF, compile_forest], ?_, ⟨[], by simp [compile_forest]⟩⟩
    intro i hi
    rfl
  | cons t f2 =>
    obtain ⟨inv1, len1, frame1, hpops1, hge1, hget1, hrep1⟩ :=
      compile_lop_spec t sid st hsid hinv
    set st1 := (compile_lop t sid st).1 with hst1
    have hsid1 : sid < st1.sg.stages.length := by
      rw [len1]
      omega
    obtain ⟨inv2, len2, frame2, hpops2⟩ := compile_forest_spec f2 sid st1 hsid1 inv1
    set stF := (compile_forest f2 sid st1).1 with hstF
    have hstep : compile_forest (.cons t f2) sid st
        = (stF, (compile_lop t sid st).2 :: (compile_forest f2 sid st1).2) := rfl
    rw [hstep]
    refine ⟨inv2, ?_, ?_, ?_⟩
    · show stF.sg.stages.length = st.sg.stages.length + countRepartF (.cons t f2)
      rw [len2, len1]
      simp [countRepartF]
      omega
    · intro i hi
      have h2 := frame2 i (by rw [len1]; omega)
      rw [h2]
      exact frame1 i hi
    · obtain ⟨l1, hl1⟩ := hpops1
      obtain ⟨l2, hl2⟩ := hpops2
      exact ⟨l1 ++ l2, by rw [hl2, hl1, List.append_assoc]⟩
end

/-- A non-Repartition node leaves the stage graph exactly as its children
left it: the children were compiled under the unchanged current stage and
the node itself touches no stage. -/
theorem compile_lop_sg_non_repartition (kind : LOPKind) (cs : LOPForest)
    (sid : Nat) (st : CompSt) (hrep : kind ≠ LOPKind.repartition) :
    (compile_lop (.node kind cs) sid st).1.sg = (compile_forest cs sid st).1.sg := by
  simp only [compile_lop, hrep, if_false, ite_false]
  split
  · rename_i hcon
    exact absurd rfl hcon
  · rfl

/-- Claim C7: compiling a Repartition logical node allocates one new stage
whose parent is the current stage and records the compiled POP key as that
stage's root (the new stage sits at index st.sg.stages.length); compiling a
non-Repartition node adds no stage of its own and hands the unchanged
current stage to its children (its stage graph is exactly the one its
children produced); stages grow by exactly one per Repartition node; and
from any wellformed state, every Repartition POP key of the result is the
root of exactly one stage. -/
theorem c7_repartition_stage_allocation (t : LOPTree) (sid : Nat) (st : CompSt)
    (hsid : sid < st.sg.stages.length) (hinv : st.invB = true) :
    ((compile_lop t sid st).1.invB = true) ∧
    (∀ pk, (compile_lop t sid st).1.pops[pk]? = some POPKind.repartition →
        rootsOf (compile_lop t sid st).1 pk = 1) ∧
    ((compile_lop t sid st).1.sg.stages.length
        = st.sg.stages.length + countRepart t) ∧
    (t.kind = LOPKind.repartition →
        (compile_lop t sid st).1.sg.stages[st.sg.stages.length]?
          = some ⟨some sid, some (compile_lop t sid st).2⟩) ∧
    (t.kind ≠ LOPKind.repartition →
        (compile_lop t sid st).1.sg = (compile_forest t.children sid st).1.sg) := by
  obtain ⟨inv, len, frame, hpops, hge, hget, hrepc⟩ := compile_lop_spec t sid st hsid hinv
  refine ⟨inv, (invB_parts _ inv).2, len, hrepc, ?_⟩
  intro hnr
  cases t with
  | node kind cs =>
    exact compile_lop_sg_non_repartition kind cs sid st
      (by simpa [LOPTree.kind] using hnr)

/-- Witness for the C7 theorem: compiling a Repartition node over a table
scan from the initial one-stage state yields a second stage with parent 0
whose root is the key of the Repartition POP. -/
theorem c7_repartition_stage_allocation_witness :
    (0 : Nat) < (⟨[], ⟨[⟨none, none⟩]⟩⟩ : CompSt).sg.stages.length ∧
    CompSt.invB ⟨[], ⟨[⟨none, none⟩]⟩⟩ = true ∧
    (compile_lop (.node .repartition (.cons (.node .tableScan .nil) .nil)) 0
        ⟨[], ⟨[⟨none, none⟩]⟩⟩).1.sg.stages[1]?
      = some ⟨some 0,
          some (compile_lop (.node .repartition (.cons (.node .tableScan .nil) .nil)) 0
            ⟨[], ⟨[⟨none, none⟩]⟩⟩).2⟩ :=
  ⟨by decide, by decide,
    (c7_repartition_stage_allocation
      (.node .repartition (.cons (.node .tableScan .nil) .nil)) 0
      ⟨[], ⟨[⟨none, none⟩]⟩⟩ (by decide) (by decide)).2.2.2.1 rfl⟩

end RustFlare
